import Mathlib

/-!
# Verification of the `ssh-rev-exec` protocol core

A shallow embedding, in Lean 4, of the protocol and concurrency engine of
`ssh-rev-exec`: the SSH-agent frame codec (`src/ssh_agent.rs`), the extension
envelope, the RPC vocabulary (`src/rpc.rs`), the per-connection router and
session state machine of the agent role (`src/rev_agent.rs`), and the reply
decoding of the exec-side client driver (`src/rev_exec.rs`).

Bytes are modelled as `Nat` (a byte is a value `< 256`); byte strings as
`List Nat`. Machine-integer truncation (`as u32` casts, `u32::from_be_bytes`,
`i32` two's complement) is made explicit with `% 2 ^ 32`.
-/

deriving instance DecidableEq for Except

namespace SshRevExec

/-! ## Frame codec (`src/ssh_agent.rs`) -/

/-- `Message` from `ssh_agent.rs`: a wire unit with a type byte and contents. -/
structure Message where
  message_type : Nat
  contents : List Nat
deriving DecidableEq, Repr

/-- `SSH_AGENT_FAILURE = 5`. -/
def SSH_AGENT_FAILURE : Nat := 5

/-- `SSH_AGENT_SUCCESS = 6`. -/
def SSH_AGENT_SUCCESS : Nat := 6

/-- `SSH_AGENTC_EXTENSION = 27`. -/
def SSH_AGENTC_EXTENSION : Nat := 27

/-- `SSH_AGENT_EXTENSION_FAILURE = 28`. -/
def SSH_AGENT_EXTENSION_FAILURE : Nat := 28

/-- `Message::failure()`. -/
def Message.failure : Message :=
  { message_type := SSH_AGENT_FAILURE, contents := [] }

/-- `Message::extension_failure()`. -/
def Message.extension_failure : Message :=
  { message_type := SSH_AGENT_EXTENSION_FAILURE, contents := [] }

/-- Big-endian `u32` bytes of `n`, as in `u32::to_be_bytes` (the `% 256` on
each digit realises the `as u32` truncation of the Rust cast). -/
def be32 (n : Nat) : List Nat :=
  [n / 2 ^ 24 % 256, n / 2 ^ 16 % 256, n / 2 ^ 8 % 256, n % 256]

/-- `u32::from_be_bytes` on the first four bytes of `l`
(callers guarantee `4 ≤ l.length`). -/
def readU32 (l : List Nat) : Nat :=
  l.getD 0 0 * 2 ^ 24 + l.getD 1 0 * 2 ^ 16 + l.getD 2 0 * 2 ^ 8 + l.getD 3 0

/-- `<Codec as Decoder>::decode`: from a buffer, either an error (zero length
prefix), `none` (needs more bytes; the buffer is retained), or one decoded
`Message` together with the bytes remaining in the buffer. -/
def Codec.decode (src : List Nat) : Except Unit (Option (Message × List Nat)) :=
  if src.length < 4 then .ok none
  else if readU32 src = 0 then .error ()
  else if src.length < readU32 src + 4 then .ok none
  else
    .ok (some ({ message_type := ((src.drop 4).take (readU32 src)).headD 0,
                 contents := ((src.drop 4).take (readU32 src)).drop 1 },
               src.drop (4 + readU32 src)))

/-- `<Codec as Encoder>::encode`:
`be32(len(contents)+1) ‖ message_type ‖ contents`. -/
def Codec.encode (msg : Message) : List Nat :=
  be32 (msg.contents.length + 1) ++ msg.message_type :: msg.contents

theorem be32_lt (n : Nat) : ∀ b ∈ be32 n, b < 256 := by
  intro b hb
  simp only [be32, List.mem_cons, List.not_mem_nil, or_false] at hb
  rcases hb with h | h | h | h <;> subst h <;> exact Nat.mod_lt _ (by norm_num)

theorem readU32_be32 (n : Nat) (h : n < 2 ^ 32) : readU32 (be32 n) = n := by
  simp only [be32, readU32, List.getD_cons_zero, List.getD_cons_succ]
  omega

theorem encode_length (m : Message) :
    (Codec.encode m).length = m.contents.length + 5 := by
  simp [Codec.encode, be32]

/-- Decoding right after an encoded frame: the frame is consumed whole and the
original message is recovered, with the trailing bytes untouched. -/
theorem decode_encode_append (m : Message) (rest : List Nat)
    (h : m.contents.length ≤ 2 ^ 32 - 2) :
    Codec.decode (Codec.encode m ++ rest) = .ok (some (m, rest)) := by
  have hlen : m.contents.length + 1 < 2 ^ 32 := by omega
  have hread : readU32 (Codec.encode m ++ rest) = m.contents.length + 1 := by
    have : readU32 (Codec.encode m ++ rest) = readU32 (be32 (m.contents.length + 1)) := by
      simp [Codec.encode, readU32, be32]
    rw [this, readU32_be32 _ hlen]
  have henc : Codec.encode m ++ rest
      = be32 (m.contents.length + 1) ++ (m.message_type :: m.contents ++ rest) := by
    simp [Codec.encode]
  unfold Codec.decode
  rw [hread]
  have hle : (Codec.encode m ++ rest).length = m.contents.length + 5 + rest.length := by
    simp [encode_length]
  rw [if_neg (by omega), if_neg (by omega), if_neg (by omega)]
  have hdrop4 : (Codec.encode m ++ rest).drop 4 = m.message_type :: m.contents ++ rest := by
    rw [henc]
    rw [List.drop_append_of_le_length (by simp [be32])]
    simp [be32]
  have hbody : ((Codec.encode m ++ rest).drop 4).take (m.contents.length + 1)
      = m.message_type :: m.contents := by
    rw [hdrop4]
    simp [List.take_append_of_le_length]
  have hrest : (Codec.encode m ++ rest).drop (4 + (m.contents.length + 1)) = rest := by
    have : 4 + (m.contents.length + 1) = (Codec.encode m).length := by
      rw [encode_length]; omega
    rw [this, List.drop_append_of_le_length (le_refl _)]
    simp
  simp only [hbody, hrest]
  rfl

/-- A strict prefix of an encoded frame never yields a message: the decoder
reports "need more bytes" (`ok none`). -/
theorem decode_prefix_none (m : Message) (p : List Nat)
    (hm : m.contents.length ≤ 2 ^ 32 - 2)
    (hp : p = (Codec.encode m).take p.length)
    (hlt : p.length < (Codec.encode m).length) :
    Codec.decode p = .ok none := by
  unfold Codec.decode
  by_cases h4 : p.length < 4
  · rw [if_pos h4]
  · rw [if_neg h4]
    have hlen : m.contents.length + 1 < 2 ^ 32 := by omega
    have hread : readU32 p = m.contents.length + 1 := by
      have hfirst : ∀ i, i < 4 → p.getD i 0 = (be32 (m.contents.length + 1)).getD i 0 := by
        intro i hi
        rw [hp]
        have hip : i < p.length := by omega
        have h1 : ((Codec.encode m).take p.length).getD i 0 = (Codec.encode m).getD i 0 := by
          simp [List.getD, List.getElem?_take, hip]
        rw [h1, Codec.encode, List.getD_append _ _ _ _ (by simp [be32]; omega)]
      simp only [readU32, hfirst 0 (by norm_num), hfirst 1 (by norm_num),
        hfirst 2 (by norm_num), hfirst 3 (by norm_num)]
      exact readU32_be32 _ hlen
    rw [hread, if_neg (by omega)]
    rw [encode_length] at hlt
    rw [if_pos (by omega)]

theorem Codec.decode_some_length {src : List Nat} {m : Message} {rest : List Nat}
    (h : Codec.decode src = .ok (some (m, rest))) : rest.length < src.length := by
  unfold Codec.decode at h
  split at h
  · simp at h
  · split at h
    · simp at h
    · split at h
      · simp at h
      · simp only [Except.ok.injEq, Option.some.injEq, Prod.mk.injEq] at h
        obtain ⟨-, hr⟩ := h
        subst hr
        simp only [List.length_drop]
        omega

/-- The repeated-decode loop that `tokio_util::codec::FramedRead` drives: pull
messages out of the buffer until the decoder reports "need more bytes",
returning the messages in order and the retained partial input. An error
(zero-length frame) fails the whole stream. -/
def Codec.drain (src : List Nat) : Except Unit (List Message × List Nat) :=
  match h : Codec.decode src with
  | .error _ => .error ()
  | .ok none => .ok ([], src)
  | .ok (some (m, rest)) =>
    match Codec.drain rest with
    | .error _ => .error ()
    | .ok (ms, leftover) => .ok (m :: ms, leftover)
termination_by src.length
decreasing_by exact Codec.decode_some_length h

/-- Feeding one chunk to a decoder whose retained partial input is `st`. -/
def Codec.feed (st chunk : List Nat) : Except Unit (List Message × List Nat) :=
  Codec.drain (st ++ chunk)

/-- Feeding a sequence of chunks, threading the retained partial input. -/
def Codec.feedAll (st : List Nat) : List (List Nat) → Except Unit (List Message × List Nat)
  | [] => .ok ([], st)
  | c :: cs =>
    match Codec.feed st c with
    | .error _ => .error ()
    | .ok (ms, st') =>
      match Codec.feedAll st' cs with
      | .error _ => .error ()
      | .ok (ms', lf) => .ok (ms ++ ms', lf)

/-- The concatenation of the encodings of a sequence of messages. -/
def encodeAll (msgs : List Message) : List Nat :=
  (msgs.map Codec.encode).flatten

theorem encodeAll_nil : encodeAll [] = [] := rfl

theorem encodeAll_cons (m : Message) (ms : List Message) :
    encodeAll (m :: ms) = Codec.encode m ++ encodeAll ms := by
  simp [encodeAll]

theorem encodeAll_cons_length (m : Message) (ms : List Message) :
    (Codec.encode m).length ≤ (encodeAll (m :: ms)).length := by
  rw [encodeAll_cons]
  simp

theorem Codec.drain_of_error {src : List Nat} (h : Codec.decode src = .error ()) :
    Codec.drain src = .error () := by
  rw [Codec.drain.eq_def]
  split <;> simp_all

theorem Codec.drain_of_none {src : List Nat} (h : Codec.decode src = .ok none) :
    Codec.drain src = .ok ([], src) := by
  rw [Codec.drain.eq_def]
  split <;> simp_all

theorem Codec.drain_of_some {src : List Nat} {m : Message} {rest : List Nat}
    (h : Codec.decode src = .ok (some (m, rest))) :
    Codec.drain src =
      match Codec.drain rest with
      | .error _ => .error ()
      | .ok (ms, leftover) => .ok (m :: ms, leftover) := by
  rw [Codec.drain.eq_def]
  split <;> simp_all

/-- Draining any prefix of an encoded message stream yields exactly the
messages whose frames are complete in the prefix, in order, and retains a
strict prefix of the next frame. -/
theorem Codec.drain_split :
    ∀ (msgs : List Message) (buf future : List Nat),
      (∀ m ∈ msgs, m.contents.length ≤ 2 ^ 32 - 2) →
      buf ++ future = encodeAll msgs →
      ∃ out rest leftover,
        msgs = out ++ rest ∧
        Codec.drain buf = .ok (out, leftover) ∧
        leftover ++ future = encodeAll rest ∧
        (leftover = [] ∨
          ∃ m ms, rest = m :: ms ∧ leftover.length < (Codec.encode m).length) := by
  intro msgs
  induction msgs with
  | nil =>
    intro buf future _ heq
    rw [encodeAll_nil] at heq
    rw [List.append_eq_nil] at heq
    obtain ⟨hb, hf⟩ := heq
    subst hb; subst hf
    refine ⟨[], [], [], rfl, ?_, rfl, .inl rfl⟩
    exact Codec.drain_of_none (by simp [Codec.decode])
  | cons m ms ih =>
    intro buf future hvalid heq
    have hm : m.contents.length ≤ 2 ^ 32 - 2 := hvalid m (by simp)
    have heq' : buf ++ future = Codec.encode m ++ encodeAll ms := by
      rw [heq, encodeAll_cons]
    rcases Nat.lt_or_ge buf.length (Codec.encode m).length with hlt | hge
    · -- strict prefix of the first frame: nothing decodes yet
      have hpre : buf = (Codec.encode m).take buf.length := by
        have h1 : List.take buf.length (buf ++ future)
            = List.take buf.length (Codec.encode m ++ encodeAll ms) := by
          rw [heq']
        rw [List.take_append_of_le_length (le_refl _), List.take_length,
          List.take_append_of_le_length (by omega)] at h1
        exact h1
      have hnone := decode_prefix_none m buf hm hpre hlt
      exact ⟨[], m :: ms, buf, rfl, Codec.drain_of_none hnone, heq,
        .inr ⟨m, ms, rfl, hlt⟩⟩
    · -- the first frame is complete in the buffer
      have hsplit : buf = Codec.encode m ++ buf.drop (Codec.encode m).length := by
        have h1 : buf.take (Codec.encode m).length = Codec.encode m := by
          have h2 : List.take (Codec.encode m).length (buf ++ future)
              = List.take (Codec.encode m).length (Codec.encode m ++ encodeAll ms) := by
            rw [heq']
          rw [List.take_append_of_le_length hge,
            List.take_append_of_le_length (le_refl _), List.take_length] at h2
          exact h2
        conv_lhs => rw [← List.take_append_drop (Codec.encode m).length buf]
        rw [h1]
      set buf' := buf.drop (Codec.encode m).length with hbuf'
      have hfut : buf' ++ future = encodeAll ms := by
        have : Codec.encode m ++ (buf' ++ future) = Codec.encode m ++ encodeAll ms := by
          rw [← List.append_assoc, ← hsplit, heq']
        exact List.append_cancel_left this
      have hdec : Codec.decode buf = .ok (some (m, buf')) := by
        rw [hsplit]
        exact decode_encode_append m buf' hm
      obtain ⟨out, rest, leftover, hrest, hdrain, hleft, hinv⟩ :=
        ih buf' future (fun x hx => hvalid x (by simp [hx])) hfut
      refine ⟨m :: out, rest, leftover, by simp [hrest], ?_, hleft, hinv⟩
      rw [Codec.drain_of_some hdec, hdrain]

/-- Feeding any chunking of an encoded message stream into a fresh decoder
recovers exactly the original messages, with nothing retained. -/
theorem Codec.feedAll_spec :
    ∀ (chunks : List (List Nat)) (msgs : List Message) (leftover : List Nat),
      (∀ m ∈ msgs, m.contents.length ≤ 2 ^ 32 - 2) →
      leftover ++ chunks.flatten = encodeAll msgs →
      (leftover = [] ∨
        ∃ m ms, msgs = m :: ms ∧ leftover.length < (Codec.encode m).length) →
      Codec.feedAll leftover chunks = .ok (msgs, []) := by
  intro chunks
  induction chunks with
  | nil =>
    intro msgs leftover _ heq hinv
    simp only [List.flatten_nil, List.append_nil] at heq
    have hmsgs : msgs = [] := by
      cases msgs with
      | nil => rfl
      | cons m ms =>
        exfalso
        have hlen1 : (Codec.encode m).length ≤ leftover.length := by
          rw [heq]
          exact encodeAll_cons_length m ms
        have hlen2 : (Codec.encode m).length = m.contents.length + 5 := encode_length m
        rcases hinv with hnil | ⟨m', ms', hcons, hlt⟩
        · subst hnil
          simp only [List.length_nil] at hlen1
          omega
        · injection hcons with hm' hms'
          subst hm'
          omega
    subst hmsgs
    rw [encodeAll_nil] at heq
    subst heq
    rfl
  | cons c cs ih =>
    intro msgs leftover hvalid heq hinv
    have heq' : (leftover ++ c) ++ cs.flatten = encodeAll msgs := by
      simpa [List.append_assoc] using heq
    obtain ⟨out, rest, lf, hrest, hdrain, hleft, hinv'⟩ :=
      Codec.drain_split msgs (leftover ++ c) cs.flatten hvalid heq'
    have hfeed : Codec.feed leftover c = .ok (out, lf) := hdrain
    have hrest_valid : ∀ m ∈ rest, m.contents.length ≤ 2 ^ 32 - 2 := by
      intro x hx
      exact hvalid x (by rw [hrest]; exact List.mem_append_right _ hx)
    have hinv'' : lf = [] ∨
        ∃ m ms, rest = m :: ms ∧ lf.length < (Codec.encode m).length := hinv'
    have hrec := ih rest lf hrest_valid hleft hinv''
    simp only [Codec.feedAll, hfeed, hrec, hrest]

/-- C9: an input byte stream whose 4-byte big-endian length prefix reads
zero makes `Codec::decode` fail the stream with an error (not a message, not
a retained partial input), and the repeated-decode loop propagates the
error: no recovery. -/
theorem c9_zero_length_frame_rejected (src : List Nat)
    (h4 : 4 ≤ src.length) (h0 : readU32 src = 0) :
    Codec.decode src = .error () ∧ Codec.drain src = .error () := by
  have hdec : Codec.decode src = .error () := by
    unfold Codec.decode
    rw [if_neg (by omega)]
    simp [h0]
  exact ⟨hdec, Codec.drain_of_error hdec⟩

/-- Witness for C9: the byte sequence `00 00 00 00` fails decoding. -/
theorem c9_witness :
    4 ≤ ([0, 0, 0, 0] : List Nat).length ∧
      Codec.decode [0, 0, 0, 0] = .error () ∧ Codec.drain [0, 0, 0, 0] = .error () :=
  ⟨by decide, c9_zero_length_frame_rejected [0, 0, 0, 0] (by decide) (by decide)⟩

/-- C4: frame round-trip. Decoding an encoded frame recovers the original
message exactly (for payloads of length at most `2^32 − 2`, below the `u32`
length-prefix truncation), and feeding the concatenation of any finite
sequence of encoded frames, split into arbitrary chunks, to the streaming
decoder yields exactly that sequence of messages with nothing retained. -/
theorem c4_frame_roundtrip :
    (∀ m : Message, m.contents.length ≤ 2 ^ 32 - 2 →
      Codec.decode (Codec.encode m) = .ok (some (m, []))) ∧
    (∀ (msgs : List Message) (chunks : List (List Nat)),
      (∀ m ∈ msgs, m.contents.length ≤ 2 ^ 32 - 2) →
      chunks.flatten = encodeAll msgs →
      Codec.feedAll [] chunks = .ok (msgs, [])) := by
  constructor
  · intro m hm
    have := decode_encode_append m [] hm
    simpa using this
  · intro msgs chunks hvalid hjoin
    exact Codec.feedAll_spec chunks msgs [] hvalid (by simpa using hjoin) (.inl rfl)

/-- Witness for C4: the frame `00 00 00 01 06` round-trips for the message
`{type := SSH_AGENT_SUCCESS, contents := ""}`, and the two-message stream
`encode ⟨6, []⟩ ‖ encode ⟨5, [7]⟩` decodes to those two messages under an
uneven chunking. -/
theorem c4_witness :
    Codec.decode (Codec.encode ⟨6, []⟩) = .ok (some (⟨6, []⟩, [])) ∧
      Codec.feedAll [] [[0, 0], [0, 1, 6, 0, 0, 0], [2, 5, 7]]
        = .ok ([⟨6, []⟩, ⟨5, [7]⟩], []) :=
  ⟨c4_frame_roundtrip.1 ⟨6, []⟩ (by decide),
   c4_frame_roundtrip.2 [⟨6, []⟩, ⟨5, [7]⟩] [[0, 0], [0, 1, 6, 0, 0, 0], [2, 5, 7]]
     (by decide) (by decide)⟩

/-! ## Extension envelope (`src/ssh_agent.rs`) -/

/-- `Extension` from `ssh_agent.rs`: the payload of an `EXTENSION` message,
a length-prefixed `extension_type` followed by the extension contents. -/
structure Extension where
  extension_type : List Nat
  contents : List Nat
deriving DecidableEq, Repr

/-- `<Extension as TryFrom<Bytes>>::try_from`: fails when fewer than 4 bytes
remain or when the announced `ext_type` length exceeds the rest. -/
def Extension.tryFrom (bytes : List Nat) : Except Unit Extension :=
  if bytes.length < 4 then .error ()
  else if (bytes.drop 4).length < readU32 bytes then .error ()
  else .ok { extension_type := (bytes.drop 4).take (readU32 bytes),
             contents := (bytes.drop 4).drop (readU32 bytes) }

/-- `<Bytes as From<Extension>>::from`:
`be32(len(ext_type)) ‖ ext_type ‖ contents`. -/
def Extension.toBytes (ext : Extension) : List Nat :=
  be32 ext.extension_type.length ++ ext.extension_type ++ ext.contents

/-! ## RPC vocabulary (`src/rpc.rs`) -/

/-- `EXTENSION_TYPE`: the ASCII bytes of `ssh-rev-exec.1@koba789.com`. -/
def EXTENSION_TYPE : List Nat :=
  "ssh-rev-exec.1@koba789.com".toList.map Char.toNat

/-- `Exec` from `rpc.rs`: the JSON command descriptor (`envs`, a `HashMap` in
the source, is carried as an association list). -/
structure Exec where
  cmd : String
  args : List String
  envs : List (String × String)
  cwd : Option String
deriving DecidableEq, Repr

/-- `Request` from `rpc.rs`. -/
inductive Request where
  | exec (e : Exec)
  | stdin (bytes : List Nat)
  | watch
deriving DecidableEq, Repr

/-- `<Request as TryFrom<Bytes>>::try_from`, parameterised by the external
JSON decoder (`serde_json::from_slice::<Exec>`, a library dependency, not
code of this repository). Opcode 0 is `Exec` (JSON payload), 1 is `Stdin`
(raw remainder), 2 is `Watch`; an empty payload or an unknown opcode is an
error. -/
def Request.tryFrom (jsonExec : List Nat → Option Exec) (bytes : List Nat) :
    Except Unit Request :=
  match bytes with
  | [] => .error ()
  | code :: rest =>
    match code with
    | 0 =>
      match jsonExec rest with
      | some e => .ok (.exec e)
      | none => .error ()
    | 1 => .ok (.stdin rest)
    | 2 => .ok .watch
    | _ => .error ()

/-- `Event` from `rpc.rs`. -/
inductive Event where
  | cancelled
  | stdout (bytes : List Nat)
  | stderr (bytes : List Nat)
  | exited (status : Int)
deriving DecidableEq, Repr

/-- `Bytes::get_i32`: big-endian `i32` (two's complement) from the first four
bytes. -/
def readI32 (l : List Nat) : Int :=
  if readU32 l < 2 ^ 31 then (readU32 l : Int) else (readU32 l : Int) - 2 ^ 32

/-- `BytesMut::put_i32`: big-endian two's complement bytes of an `i32`. -/
def i32be (status : Int) : List Nat :=
  be32 (status % 2 ^ 32).toNat

/-- `Event::into_bytes`: 1-byte opcode followed by the opcode-specific
payload. -/
def Event.into_bytes : Event → List Nat
  | .cancelled => [0]
  | .stdout b => 1 :: b
  | .stderr b => 2 :: b
  | .exited c => 3 :: i32be c

/-- `<Event as TryFrom<Bytes>>::try_from`: opcode 0 is `Cancelled`, 1 is
`Stdout`, 2 is `Stderr`, 3 is `Exited` (needing at least 4 further bytes);
an empty payload or an unknown opcode is an error. -/
def Event.tryFrom (bytes : List Nat) : Except Unit Event :=
  match bytes with
  | [] => .error ()
  | code :: rest =>
    match code with
    | 0 => .ok .cancelled
    | 1 => .ok (.stdout rest)
    | 2 => .ok (.stderr rest)
    | 3 => if rest.length < 4 then .error () else .ok (.exited (readI32 rest))
    | _ => .error ()

/-! ## Router (`src/rev_agent.rs`) -/

/-- What `Router::handle_request` does with one `(request, reply_slot)` pair:
place a message into the reply slot, hand the extension payload (with the
slot) to the session, or fall through to `forward_to_upstream`. -/
inductive RouterAction where
  | reply (msg : Message)
  | toSession (payload : List Nat)
  | forwardUpstream
deriving DecidableEq, Repr

/-- `Router::handle_request`: an `EXTENSION` message whose envelope parses and
carries the recognized `ext_type` goes to the session; any other `EXTENSION`
message gets `Message::failure()` in its reply slot; every other message type
falls through to the upstream path. -/
def Router.handle_request (request : Message) : RouterAction :=
  if request.message_type = SSH_AGENTC_EXTENSION then
    match Extension.tryFrom request.contents with
    | .error _ => .reply Message.failure
    | .ok ext =>
      if ext.extension_type = EXTENSION_TYPE then .toSession ext.contents
      else .reply Message.failure
  else .forwardUpstream

/-- `Router::forward_to_upstream`: with an upstream (modelled by its response
function) the request is written to it verbatim and its reply goes into the
slot; with no upstream the slot gets `Message::failure()`. Returns
(message written upstream, reply placed into the slot). -/
def Router.forward_to_upstream (upstream : Option (Message → Message))
    (request : Message) : Option Message × Message :=
  match upstream with
  | some agent => (some request, agent request)
  | none => (none, Message.failure)

/-- C2 counterexample: the type-27 message with contents
`00 00 00 01 78` — a well-formed envelope whose `ext_type` is the single
byte `x`, not the recognized string — is answered with `AGENT_FAILURE` by
`Router::handle_request`; it is not forwarded to the upstream proxy, contrary
to the claim. -/
theorem c2_counterexample :
    Extension.tryFrom [0, 0, 0, 1, 120] = .ok ⟨[120], []⟩ ∧
      ([120] : List Nat) ≠ EXTENSION_TYPE ∧
      Router.handle_request ⟨27, [0, 0, 0, 1, 120]⟩ = .reply Message.failure ∧
      Router.handle_request ⟨27, [0, 0, 0, 1, 120]⟩ ≠ .forwardUpstream := by
  decide

/-- C2 (amended): a message of type `EXTENSION (27)` whose extension envelope
parses but whose `ext_type` is not the recognized string gets
`Message::failure()` (`AGENT_FAILURE`) placed in its reply slot; it is never
forwarded to the upstream proxy and never enters the session. -/
theorem c2_unrecognized_extension_routing (m : Message) (ext : Extension)
    (h27 : m.message_type = SSH_AGENTC_EXTENSION)
    (hok : Extension.tryFrom m.contents = .ok ext)
    (hne : ext.extension_type ≠ EXTENSION_TYPE) :
    Router.handle_request m = .reply Message.failure ∧
      Router.handle_request m ≠ .forwardUpstream ∧
      ∀ p, Router.handle_request m ≠ .toSession p := by
  have hr : Router.handle_request m = .reply Message.failure := by
    unfold Router.handle_request
    rw [if_pos h27, hok]
    simp [hne]
  exact ⟨hr, by simp [hr], fun p => by simp [hr]⟩

/-- Witness for C2 (amended), at the counterexample's concrete input. -/
theorem c2_witness :
    Router.handle_request ⟨27, [0, 0, 0, 1, 120]⟩ = .reply Message.failure ∧
      Router.handle_request ⟨27, [0, 0, 0, 1, 120]⟩ ≠ .forwardUpstream ∧
      ∀ p, Router.handle_request ⟨27, [0, 0, 0, 1, 120]⟩ ≠ .toSession p :=
  c2_unrecognized_extension_routing ⟨27, [0, 0, 0, 1, 120]⟩ ⟨[120], []⟩
    rfl (by decide) (by decide)

/-- C3: for a request of type `EXTENSION (27)`: a malformed envelope or an
unrecognized `ext_type` puts `Message::failure()` (`AGENT_FAILURE`) into the
reply slot; a recognized `ext_type` hands the extension payload (with the
reply slot) to the session and the message never goes to the upstream
agent. -/
theorem c3_router_extension_dispatch (m : Message) (ext : Extension)
    (h27 : m.message_type = SSH_AGENTC_EXTENSION) :
    (Extension.tryFrom m.contents = .error () →
      Router.handle_request m = .reply Message.failure) ∧
    (Extension.tryFrom m.contents = .ok ext →
      ext.extension_type ≠ EXTENSION_TYPE →
      Router.handle_request m = .reply Message.failure) ∧
    (Extension.tryFrom m.contents = .ok ext →
      ext.extension_type = EXTENSION_TYPE →
      Router.handle_request m = .toSession ext.contents ∧
        Router.handle_request m ≠ .forwardUpstream) := by
  refine ⟨fun herr => ?_, fun hok hne => ?_, fun hok heq => ?_⟩
  · unfold Router.handle_request
    rw [if_pos h27, herr]
  · unfold Router.handle_request
    rw [if_pos h27, hok]
    simp [hne]
  · have hr : Router.handle_request m = .toSession ext.contents := by
      unfold Router.handle_request
      rw [if_pos h27, hok]
      simp [heq]
    exact ⟨hr, by simp [hr]⟩

/-- Witness for C3: the envelope `be32(26) ‖ "ssh-rev-exec.1@koba789.com" ‖ 02`
carries the recognized `ext_type` and is handed to the session as the payload
`[2]` (a `Watch`); the malformed envelope `[]` gets `AGENT_FAILURE`. -/
theorem c3_witness :
    Router.handle_request ⟨27, [0, 0, 0, 26] ++ EXTENSION_TYPE ++ [2]⟩
        = .toSession [2] ∧
      Router.handle_request ⟨27, []⟩ = .reply Message.failure :=
  ⟨((c3_router_extension_dispatch ⟨27, [0, 0, 0, 26] ++ EXTENSION_TYPE ++ [2]⟩
      ⟨EXTENSION_TYPE, [2]⟩ rfl).2.2 (by decide) (by decide)).1,
   (c3_router_extension_dispatch ⟨27, []⟩ ⟨[], []⟩ rfl).1 (by decide)⟩

/-- C10: the `Request` and `Event` decoders ignore trailing bytes beyond what
an opcode requires: any non-empty payload with leading opcode 2 decodes to
`Watch` whatever follows, and an `Exited` event payload with at least 4 bytes
after the opcode decodes using only the first 4 as the big-endian exit
code. -/
theorem c10_decoders_ignore_trailing_bytes :
    (∀ (jsonExec : List Nat → Option Exec) (rest : List Nat),
        Request.tryFrom jsonExec (2 :: rest) = .ok .watch) ∧
    (∀ (a b c d : Nat) (rest : List Nat),
        Event.tryFrom (3 :: a :: b :: c :: d :: rest)
          = .ok (.exited (readI32 [a, b, c, d]))) := by
  constructor
  · intro jsonExec rest
    rfl
  · intro a b c d rest
    simp only [Event.tryFrom]
    rw [if_neg (by simp)]
    rfl

/-! ## Session (`RevExt` in `src/rev_agent.rs`) -/

/-- `Running` from `rev_agent.rs`, abstracted to the openness of the three
stream handles: `stdinOpen` is `r.stdin.is_some()`, and likewise for the two
output pipes (each becomes `None` on EOF). -/
structure Running where
  stdinOpen : Bool
  stdoutOpen : Bool
  stderrOpen : Bool
deriving DecidableEq, Repr

/-- The `tokio::process::Command` configuration assembled by `RevExt::exec`
before `spawn()`. -/
structure CommandConfig where
  cmd : String
  args : List String
  envs : List (String × String)
  stdinPiped : Bool
  stdoutPiped : Bool
  stderrPiped : Bool
  killOnDrop : Bool
  cwd : Option String
deriving DecidableEq, Repr

/-- `RevExt::exec`: the command is built from the descriptor's `cmd`, `args`,
`envs` and optional `cwd`, with all three standard streams `Stdio::piped()`
and `kill_on_drop(true)`. -/
def RevExt.execCommand (e : Exec) : CommandConfig :=
  { cmd := e.cmd, args := e.args, envs := e.envs,
    stdinPiped := true, stdoutPiped := true, stderrPiped := true,
    killOnDrop := true, cwd := e.cwd }

/-- Outcome of one iteration of `RevExt::handle_exec` (the Idle state). -/
inductive ExecOutcome where
  | stayIdle (reply : Message)
  | spawned (cfg : CommandConfig) (r : Running) (reply : Message)
deriving DecidableEq, Repr

/-- One iteration of `RevExt::handle_exec`: only a request parsing to
`Request::Exec` spawns (all three pipes taken as open handles) and is
answered `AGENT_SUCCESS` with empty contents; anything else is answered
`Message::extension_failure()` and the session stays Idle. -/
def RevExt.handle_exec_step (jsonExec : List Nat → Option Exec)
    (payload : List Nat) : ExecOutcome :=
  match Request.tryFrom jsonExec payload with
  | .ok (.exec e) =>
    .spawned (RevExt.execCommand e) ⟨true, true, true⟩ ⟨SSH_AGENT_SUCCESS, []⟩
  | _ => .stayIdle Message.extension_failure

/-- Side effect of the `Request::Stdin` arm on the child's stdin pipe. -/
inductive StdinEffect where
  | wrote (bytes : List Nat)
  | closed
  | noop
deriving DecidableEq, Repr

/-- The `Request::Stdin` arm of `RevExt::handle_stdin_watch`: with the stdin
handle still present, empty bytes shut it down and drop it (reply `SUCCESS`),
non-empty bytes are written through (reply `SUCCESS`); with the handle gone
the reply is `EXTENSION_FAILURE`. -/
def RevExt.stdin_step (r : Running) (bytes : List Nat) :
    Running × Message × StdinEffect :=
  if r.stdinOpen then
    if bytes.isEmpty then
      ({ r with stdinOpen := false }, ⟨SSH_AGENT_SUCCESS, []⟩, .closed)
    else (r, ⟨SSH_AGENT_SUCCESS, []⟩, .wrote bytes)
  else (r, Message.extension_failure, .noop)

/-- Scheduling oracle for the merged race inside `RevExt::watch`: which of
the child futures resolves first. A read outcome carries the bytes the read
returned (empty means EOF); `ioError` is a failed wait or read. -/
inductive WatchOracle where
  | exited (code : Int)
  | stdoutRead (buf : List Nat)
  | stderrRead (buf : List Nat)
  | ioError
deriving DecidableEq, Repr

/-- Which oracle outcomes `RevExt::watch` can actually produce in state `r`:
a pipe read can resolve only while that pipe's handle is present (a `None`
handle waits forever), so with both output pipes closed only the child-exit
wait remains. -/
def WatchOracle.valid (r : Running) : WatchOracle → Prop
  | .exited _ => True
  | .stdoutRead _ => r.stdoutOpen = true
  | .stderrRead _ => r.stderrOpen = true
  | .ioError => True

/-- `RevExt::watch`: the event produced by the race and the handle updates it
makes — an empty read closes that pipe's handle but still yields the
empty-buffer event; the exit wait leaves the handles alone. -/
def RevExt.watch (r : Running) (o : WatchOracle) : Except Unit (Event × Running) :=
  match o with
  | .exited code => .ok (.exited code, r)
  | .stdoutRead buf =>
    .ok (.stdout buf, if buf.isEmpty then { r with stdoutOpen := false } else r)
  | .stderrRead buf =>
    .ok (.stderr buf, if buf.isEmpty then { r with stderrOpen := false } else r)
  | .ioError => .error ()

/-- Scheduling oracle for the `future::select(watch_fut, peek_fut)` in the
`Request::Watch` arm: either the watch future resolves first, or the next
request arrives first. -/
inductive WatchRace where
  | event (o : WatchOracle)
  | newRequest
deriving DecidableEq, Repr

/-- One inbound session request: the extension payload together with the
scheduling-oracle outcome consulted if this request is a `Watch`. -/
structure ReqIn where
  payload : List Nat
  race : WatchRace
deriving DecidableEq, Repr

/-- `RevExt::handle_stdin_watch`: the Spawned/Watching loop. `peek` is the
one-slot peeked-request buffer (`peek_buf`), `reqs` the queue of requests not
yet received; each iteration takes the peeked request if present, else the
next queued one. A `Watch` preempted by a new request moves that request into
the peek slot and replies `Cancelled`. Returns the replies in emission
order. -/
def RevExt.handle_stdin_watch (jsonExec : List Nat → Option Exec)
    (r : Running) (peek : Option ReqIn) (reqs : List ReqIn) : List Message :=
  match peek with
  | some q =>
    match Request.tryFrom jsonExec q.payload with
    | .error _ =>
      Message.extension_failure :: RevExt.handle_stdin_watch jsonExec r none reqs
    | .ok (.stdin bytes) =>
      let out := RevExt.stdin_step r bytes
      out.2.1 :: RevExt.handle_stdin_watch jsonExec out.1 none reqs
    | .ok .watch =>
      match q.race with
      | .event o =>
        match RevExt.watch r o with
        | .ok es =>
          ⟨SSH_AGENT_SUCCESS, es.1.into_bytes⟩ ::
            RevExt.handle_stdin_watch jsonExec es.2 none reqs
        | .error _ =>
          Message.extension_failure :: RevExt.handle_stdin_watch jsonExec r none reqs
      | .newRequest =>
        match reqs with
        | [] => [⟨SSH_AGENT_SUCCESS, Event.into_bytes .cancelled⟩]
        | q2 :: rest2 =>
          ⟨SSH_AGENT_SUCCESS, Event.into_bytes .cancelled⟩ ::
            RevExt.handle_stdin_watch jsonExec r (some q2) rest2
    | .ok (.exec _) =>
      Message.extension_failure :: RevExt.handle_stdin_watch jsonExec r none reqs
  | none =>
    match reqs with
    | [] => []
    | q :: rest => RevExt.handle_stdin_watch jsonExec r (some q) rest
termination_by 2 * reqs.length + (match peek with | some _ => 1 | none => 0)
decreasing_by
  all_goals try simp only [List.length_cons]
  all_goals omega

/-- `RevExt::handle_exec` over the whole Idle phase: every request is
answered `EXTENSION_FAILURE` until the first one parsing to `Exec`, which
spawns and is answered `AGENT_SUCCESS`; the remaining requests belong to the
Spawned phase. -/
def RevExt.handle_exec (jsonExec : List Nat → Option Exec) :
    List ReqIn → List Message × Option (CommandConfig × Running × List ReqIn)
  | [] => ([], none)
  | q :: rest =>
    match RevExt.handle_exec_step jsonExec q.payload with
    | .stayIdle reply =>
      let out := RevExt.handle_exec jsonExec rest
      (reply :: out.1, out.2)
    | .spawned cfg r reply => ([reply], some (cfg, r, rest))

/-- `RevExt::run`: the Idle phase, then (if a child was spawned) the
Spawned/Watching loop. Returns all replies in order and the list of commands
spawned on the connection. -/
def RevExt.run (jsonExec : List Nat → Option Exec) (reqs : List ReqIn) :
    List Message × List CommandConfig :=
  match RevExt.handle_exec jsonExec reqs with
  | (ms, none) => (ms, [])
  | (ms, some (cfg, r, rest)) =>
    (ms ++ RevExt.handle_stdin_watch jsonExec r none rest, [cfg])

/-- C5: while the session is Idle, every extension request other than a
well-formed `Exec` is answered `EXTENSION_FAILURE` and the session stays
Idle; a well-formed `Exec` spawns the child from the descriptor's `cmd`,
`args`, `envs` and optional `cwd`, with all three standard streams piped and
kill-on-drop bound, opens all three pipe handles, and is answered
`AGENT_SUCCESS` with empty contents. -/
theorem c5_idle_only_exec (jsonExec : List Nat → Option Exec) (payload : List Nat) :
    ((∀ e : Exec, Request.tryFrom jsonExec payload ≠ .ok (.exec e)) →
      RevExt.handle_exec_step jsonExec payload
        = .stayIdle Message.extension_failure) ∧
    (∀ e : Exec, Request.tryFrom jsonExec payload = .ok (.exec e) →
      RevExt.handle_exec_step jsonExec payload
        = .spawned ⟨e.cmd, e.args, e.envs, true, true, true, true, e.cwd⟩
            ⟨true, true, true⟩ ⟨SSH_AGENT_SUCCESS, []⟩) := by
  constructor
  · intro hne
    cases htf : Request.tryFrom jsonExec payload with
    | error u => simp [RevExt.handle_exec_step, htf]
    | ok req =>
      cases req with
      | exec e => exact absurd htf (hne e)
      | stdin bytes => simp [RevExt.handle_exec_step, htf]
      | watch => simp [RevExt.handle_exec_step, htf]
  · intro e htf
    simp [RevExt.handle_exec_step, htf, RevExt.execCommand]

/-- Witness for C5: a `Watch` payload in Idle is refused with
`EXTENSION_FAILURE`; an `Exec` payload whose JSON decodes spawns
`sh -c` with piped streams and kill-on-drop and is answered
`AGENT_SUCCESS` with empty contents. -/
theorem c5_witness :
    RevExt.handle_exec_step (fun _ => none) [2]
        = .stayIdle Message.extension_failure ∧
      RevExt.handle_exec_step (fun _ => some ⟨"sh", ["-c"], [], none⟩) [0]
        = .spawned ⟨"sh", ["-c"], [], true, true, true, true, none⟩
            ⟨true, true, true⟩ ⟨SSH_AGENT_SUCCESS, []⟩ :=
  ⟨(c5_idle_only_exec (fun _ => none) [2]).1
      (fun e h => by simp [Request.tryFrom] at h),
   (c5_idle_only_exec (fun _ => some ⟨"sh", ["-c"], [], none⟩) [0]).2
      ⟨"sh", ["-c"], [], none⟩ rfl⟩

/-- C6: a `Stdin` with empty payload while the child's stdin handle is still
present shuts the pipe down and drops the handle (reply `SUCCESS` with empty
contents); once the handle is gone, every further `Stdin` — empty or not —
is answered `EXTENSION_FAILURE` with the state unchanged and no write
performed, and no `Watch` outcome ever reopens the stdin handle. -/
theorem c6_stdin_eof_idempotence (r : Running) :
    (r.stdinOpen = true →
      RevExt.stdin_step r []
        = ({ r with stdinOpen := false }, ⟨SSH_AGENT_SUCCESS, []⟩, .closed)) ∧
    (r.stdinOpen = false → ∀ bytes,
      RevExt.stdin_step r bytes = (r, Message.extension_failure, .noop)) ∧
    (r.stdinOpen = false → ∀ (o : WatchOracle) (es : Event × Running),
      RevExt.watch r o = .ok es → es.2.stdinOpen = false) := by
  refine ⟨fun hopen => ?_, fun hclosed bytes => ?_, fun hclosed o es hw => ?_⟩
  · simp [RevExt.stdin_step, hopen]
  · simp [RevExt.stdin_step, hclosed]
  · cases o with
    | exited code =>
      simp only [RevExt.watch, Except.ok.injEq] at hw
      rw [← hw]
      exact hclosed
    | stdoutRead buf =>
      simp only [RevExt.watch, Except.ok.injEq] at hw
      rw [← hw]
      by_cases hb : buf.isEmpty <;> simp [hb, hclosed]
    | stderrRead buf =>
      simp only [RevExt.watch, Except.ok.injEq] at hw
      rw [← hw]
      by_cases hb : buf.isEmpty <;> simp [hb, hclosed]
    | ioError => simp [RevExt.watch] at hw

/-- Witness for C6: with stdin open, `Stdin("")` closes it and replies
`SUCCESS`; with stdin closed, `Stdin("x")` replies `EXTENSION_FAILURE` and
leaves it closed; a stdout-EOF `Watch` outcome leaves stdin closed. -/
theorem c6_witness :
    RevExt.stdin_step ⟨true, true, true⟩ []
        = (⟨false, true, true⟩, ⟨SSH_AGENT_SUCCESS, []⟩, .closed) ∧
      RevExt.stdin_step ⟨false, true, true⟩ [120]
        = (⟨false, true, true⟩, Message.extension_failure, .noop) ∧
      ((Event.stdout [], Running.mk false false true) : Event × Running).2.stdinOpen
        = false :=
  ⟨(c6_stdin_eof_idempotence ⟨true, true, true⟩).1 rfl,
   (c6_stdin_eof_idempotence ⟨false, true, true⟩).2.1 rfl [120],
   (c6_stdin_eof_idempotence ⟨false, true, true⟩).2.2 rfl (.stdoutRead [])
     (Event.stdout [], ⟨false, false, true⟩) (by decide)⟩

/-- C7: at most one `Exec` is honored per client connection: a whole-session
run spawns at most one command, and an `Exec` arriving once the child is
spawned is answered `EXTENSION_FAILURE`, with the session state, the pending
queue and all later replies unchanged — in particular no second spawn. -/
theorem c7_at_most_one_exec (jsonExec : List Nat → Option Exec) (reqs : List ReqIn) :
    (RevExt.run jsonExec reqs).2.length ≤ 1 ∧
    (∀ (r : Running) (q : ReqIn) (pending : List ReqIn) (e : Exec),
      Request.tryFrom jsonExec q.payload = .ok (.exec e) →
      RevExt.handle_stdin_watch jsonExec r (some q) pending
        = Message.extension_failure ::
            RevExt.handle_stdin_watch jsonExec r none pending) := by
  constructor
  · cases h : RevExt.handle_exec jsonExec reqs with
    | mk ms res =>
      cases res with
      | none => simp [RevExt.run, h]
      | some t =>
        obtain ⟨cfg, r2, rest⟩ := t
        simp [RevExt.run, h]
  · intro r q pending e htf
    cases pending with
    | nil => simp only [RevExt.handle_stdin_watch, htf]
    | cons p ps => simp only [RevExt.handle_stdin_watch, htf]

/-- Witness for C7: a session fed two `Exec` requests spawns once; an `Exec`
arriving in the Spawned phase is answered `EXTENSION_FAILURE`. -/
theorem c7_witness :
    (RevExt.run (fun _ => some ⟨"true", [], [], none⟩)
        [⟨[0], .newRequest⟩, ⟨[0], .newRequest⟩]).2.length ≤ 1 ∧
      RevExt.handle_stdin_watch (fun _ => some ⟨"true", [], [], none⟩)
          ⟨true, true, true⟩ (some ⟨[0], .newRequest⟩) []
        = Message.extension_failure ::
            RevExt.handle_stdin_watch (fun _ => some ⟨"true", [], [], none⟩)
              ⟨true, true, true⟩ none [] :=
  ⟨(c7_at_most_one_exec (fun _ => some ⟨"true", [], [], none⟩)
      [⟨[0], .newRequest⟩, ⟨[0], .newRequest⟩]).1,
   (c7_at_most_one_exec (fun _ => some ⟨"true", [], [], none⟩) []).2
     ⟨true, true, true⟩ ⟨[0], .newRequest⟩ [] ⟨"true", [], [], none⟩ rfl⟩

/-! ## Client driver (`src/rev_exec.rs`) -/

/-- The error cases of `Incoming::recv`. -/
inductive RecvError where
  | agentFailure
  | extensionFailure
  | badEvent
  | unknownType (t : Nat)
deriving DecidableEq, Repr

/-- `Incoming::recv` on one reply frame: `AGENT_FAILURE` and
`EXTENSION_FAILURE` are errors; `AGENT_SUCCESS` with empty contents is
`none` (a bare ACK); `AGENT_SUCCESS` with non-empty contents must decode as
an `Event`; any other message type is an error. -/
def Incoming.recv (message : Message) : Except RecvError (Option Event) :=
  if message.message_type = SSH_AGENT_FAILURE then .error .agentFailure
  else if message.message_type = SSH_AGENT_EXTENSION_FAILURE then
    .error .extensionFailure
  else if message.message_type = SSH_AGENT_SUCCESS then
    if message.contents.isEmpty then .ok none
    else
      match Event.tryFrom message.contents with
      | .ok event => .ok (some event)
      | .error _ => .error .badEvent
  else .error (.unknownType message.message_type)

/-- The `Exec`-acknowledgment step of `RevExec::exec`:
`self.incoming.recv().await.context("recv exec reply")?` — the driver
propagates a `recv` error and otherwise discards the received value and
proceeds. -/
def RevExec.execAck (reply : Message) : Except RecvError Unit :=
  match Incoming.recv reply with
  | .ok _ => .ok ()
  | .error e => .error e

/-- C8 counterexample: the reply `AGENT_SUCCESS` with the non-empty body
`[0]` (a well-formed `Cancelled` event) is accepted by the driver's
exec-acknowledgment step — the claim says a `SUCCESS` with non-empty body is
fatal. -/
theorem c8_counterexample :
    RevExec.execAck ⟨6, [0]⟩ = .ok () ∧ (Message.mk 6 [0]).contents ≠ [] := by
  decide

/-- C8 (amended): after sending `Exec` the driver awaits exactly one reply;
the reply is accepted iff `recv` succeeds: an `AGENT_SUCCESS` whose body is
empty, or whose body decodes as an `Event` (the decoded event is discarded).
`AGENT_FAILURE`, `EXTENSION_FAILURE`, an unrecognized reply type, and a
`SUCCESS` whose body fails `Event` decoding are all fatal errors. -/
theorem c8_exec_ack (reply : Message) :
    (RevExec.execAck reply = .ok () ↔
      reply.message_type = SSH_AGENT_SUCCESS ∧
        (reply.contents = [] ∨ ∃ ev, Event.tryFrom reply.contents = .ok ev)) ∧
    (reply.message_type = SSH_AGENT_FAILURE →
      RevExec.execAck reply = .error .agentFailure) ∧
    (reply.message_type = SSH_AGENT_EXTENSION_FAILURE →
      RevExec.execAck reply = .error .extensionFailure) ∧
    (reply.message_type ∉ [SSH_AGENT_FAILURE, SSH_AGENT_EXTENSION_FAILURE,
        SSH_AGENT_SUCCESS] →
      RevExec.execAck reply = .error (.unknownType reply.message_type)) := by
  refine ⟨⟨fun hok => ?_, fun hc => ?_⟩, fun h5 => ?_, fun h28 => ?_, fun hother => ?_⟩
  · unfold RevExec.execAck Incoming.recv at hok
    split_ifs at hok with h5 h28 h6 hemp
    · refine ⟨h6, .inl ?_⟩
      simpa [List.isEmpty_iff] using hemp
    · refine ⟨h6, ?_⟩
      cases hev : Event.tryFrom reply.contents with
      | ok ev => exact .inr ⟨ev, rfl⟩
      | error u => rw [hev] at hok; simp at hok
  · obtain ⟨h6, hbody⟩ := hc
    unfold RevExec.execAck Incoming.recv
    rw [if_neg (by rw [h6]; decide), if_neg (by rw [h6]; decide), if_pos h6]
    rcases hbody with hemp | ⟨ev, hev⟩
    · rw [if_pos (by simp [hemp])]
    · by_cases hc2 : reply.contents.isEmpty
      · rw [if_pos hc2]
      · rw [if_neg hc2, hev]
  · unfold RevExec.execAck Incoming.recv
    rw [if_pos h5]
  · unfold RevExec.execAck Incoming.recv
    rw [if_neg (by rw [h28]; decide), if_pos h28]
  · simp only [List.mem_cons, List.not_mem_nil, or_false, not_or] at hother
    obtain ⟨h5, h28, h6⟩ := hother
    unfold RevExec.execAck Incoming.recv
    rw [if_neg h5, if_neg h28, if_neg h6]

/-- Witness for C8 (amended): the empty-body `SUCCESS` is accepted; an
`AGENT_FAILURE` reply is fatal. -/
theorem c8_witness :
    RevExec.execAck ⟨6, []⟩ = .ok () ∧
      RevExec.execAck ⟨5, []⟩ = .error .agentFailure :=
  ⟨(c8_exec_ack ⟨6, []⟩).1.2 ⟨rfl, .inl rfl⟩,
   (c8_exec_ack ⟨5, []⟩).2.1 rfl⟩

/-! ## Per-connection pipeline (`handle_client` in `src/rev_agent.rs`) -/

/-- What the frame writer sends for a consumed reply slot: the handler's
reply, or `Message::failure()` when the one-shot sender was dropped
(`Err(_err)` from awaiting the `oneshot`). -/
def slotReply : Option Message → Message
  | some reply => reply
  | none => Message.failure

/-- State of one client connection's pipeline in `handle_client`:
`arrived` requests have been read off the wire (numbered `0, 1, …` in
arrival order), `queue` holds the reply slots the frame writer has not yet
consumed (front = oldest), `resolved` the slots whose handler has finished
(`none` = sender dropped), and `output` the replies written to the wire in
wire order, tagged with their request number. -/
structure PipeState where
  arrived : Nat
  queue : List Nat
  resolved : List (Nat × Option Message)
  output : List (Nat × Message)
deriving DecidableEq, Repr

/-- The pipeline state of `handle_client` before any request arrives. -/
def PipeState.init : PipeState := ⟨0, [], [], []⟩

/-- The pipeline step relation of `handle_client`. `read` is one iteration
of the frame-reader loop (`pipe_loop_fut`): it pushes the new request's
one-shot receiver at the back of the reply queue before handing the request
(with the sender) to the router. `resolve` is any handler — session or
pass-through — finishing a request: out of order at will, each slot at most
once, only for requests that have arrived. `write` is one iteration of the
frame-writer loop (`reply_loop_fut`): it consumes only the front slot, and
only once that slot has resolved; a dropped sender yields
`Message::failure()` on the wire. -/
inductive PipeStep : PipeState → PipeState → Prop
  | read (s : PipeState) :
      PipeStep s { s with arrived := s.arrived + 1, queue := s.queue ++ [s.arrived] }
  | resolve (s : PipeState) (i : Nat) (res : Option Message)
      (hi : i < s.arrived) (hfresh : ∀ p ∈ s.resolved, p.1 ≠ i) :
      PipeStep s { s with resolved := (i, res) :: s.resolved }
  | write (s : PipeState) (i : Nat) (rest : List Nat) (res : Option Message)
      (hq : s.queue = i :: rest) (hr : (i, res) ∈ s.resolved) :
      PipeStep s { s with queue := rest, output := s.output ++ [(i, slotReply res)] }

/-- Reachability of a pipeline state from the initial one. -/
def PipeReachable (s : PipeState) : Prop :=
  Relation.ReflTransGen PipeStep PipeState.init s

/-- C1: FIFO reply order. In every reachable pipeline state the requests
already answered on the wire, followed by the reply slots still queued, are
exactly `0, 1, …, arrived − 1` in order: replies appear on the wire in
request-arrival order, one per request, no matter in which order the
handlers resolved their slots; in particular, once the queue is drained,
exactly one reply was emitted per arrived request, in arrival order. -/
theorem c1_fifo_reply_order (s : PipeState) (h : PipeReachable s) :
    s.output.map Prod.fst ++ s.queue = List.range s.arrived ∧
    (s.queue = [] → s.output.map Prod.fst = List.range s.arrived) := by
  have main : s.output.map Prod.fst ++ s.queue = List.range s.arrived := by
    induction h with
    | refl => rfl
    | tail hab hbc ih =>
      cases hbc with
      | read =>
        simp only [List.range_succ, ← ih, List.append_assoc]
      | resolve i res hi hfresh =>
        simpa using ih
      | write i rest res hq hr =>
        simp only [List.map_append, List.map_cons, List.map_nil, List.append_assoc,
          List.singleton_append]
        rw [← hq, ih]
  refine ⟨main, fun hqnil => ?_⟩
  rw [hqnil, List.append_nil] at main
  exact main

/-- Witness for C1: a concrete interleaving — two requests arrive, the
second resolves before the first, the first slot's sender is dropped — still
writes replies `0` then `1` on the wire. -/
theorem c1_witness :
    ([(0, Message.failure), (1, ⟨SSH_AGENT_SUCCESS, []⟩)].map Prod.fst
        ++ ([] : List Nat) = List.range 2) ∧
      (([] : List Nat) = [] →
        ([(0, Message.failure), (1, ⟨SSH_AGENT_SUCCESS, []⟩)]
            : List (Nat × Message)).map Prod.fst = List.range 2) := by
  have h1 : PipeStep PipeState.init ⟨1, [0], [], []⟩ := .read PipeState.init
  have h2 : PipeStep ⟨1, [0], [], []⟩ ⟨2, [0, 1], [], []⟩ := .read ⟨1, [0], [], []⟩
  have h3 : PipeStep ⟨2, [0, 1], [], []⟩
      ⟨2, [0, 1], [(1, some ⟨SSH_AGENT_SUCCESS, []⟩)], []⟩ :=
    .resolve _ 1 (some ⟨SSH_AGENT_SUCCESS, []⟩) (by decide) (by simp)
  have h4 : PipeStep ⟨2, [0, 1], [(1, some ⟨SSH_AGENT_SUCCESS, []⟩)], []⟩
      ⟨2, [0, 1], [(0, none), (1, some ⟨SSH_AGENT_SUCCESS, []⟩)], []⟩ :=
    .resolve _ 0 none (by decide) (by decide)
  have h5 : PipeStep ⟨2, [0, 1], [(0, none), (1, some ⟨SSH_AGENT_SUCCESS, []⟩)], []⟩
      ⟨2, [1], [(0, none), (1, some ⟨SSH_AGENT_SUCCESS, []⟩)],
        [(0, Message.failure)]⟩ :=
    .write _ 0 [1] none rfl (by decide)
  have h6 : PipeStep ⟨2, [1], [(0, none), (1, some ⟨SSH_AGENT_SUCCESS, []⟩)],
        [(0, Message.failure)]⟩
      ⟨2, [], [(0, none), (1, some ⟨SSH_AGENT_SUCCESS, []⟩)],
        [(0, Message.failure), (1, ⟨SSH_AGENT_SUCCESS, []⟩)]⟩ :=
    .write _ 1 [] (some ⟨SSH_AGENT_SUCCESS, []⟩) rfl (by decide)
  have hreach : PipeReachable ⟨2, [], [(0, none), (1, some ⟨SSH_AGENT_SUCCESS, []⟩)],
      [(0, Message.failure), (1, ⟨SSH_AGENT_SUCCESS, []⟩)]⟩ :=
    Relation.ReflTransGen.tail
      (Relation.ReflTransGen.tail
        (Relation.ReflTransGen.tail
          (Relation.ReflTransGen.tail
            (Relation.ReflTransGen.tail (Relation.ReflTransGen.single h1) h2) h3) h4)
        h5) h6
  exact c1_fifo_reply_order _ hreach
